import Mathlib

/-!
# Verification of the `ninja_items` hierarchical item API

Shallow embedding of `src/itemsapi/save/api_fat.py`: a Django-Ninja API over
an MPTT (nested-set) tree of `Item` rows with notes/emails/attachments and an
append-only `ComponentHistory` log of reparenting events.

The repository ships only the API module; the Django models module
(`.models`, providing the MPTT mixin operations `move_to`, `is_ancestor_of`,
`get_ancestors`, `get_descendants`, `get_children` and Django's `full_clean`)
is absent, so those operations are modelled from the spec (sections 4.2, 4.3
and 7), each marked `Modelled from the spec:` in its doc comment.

Conventions:
* database integers are Lean `Int` (coordinates, depth) and `Nat` (ids);
* a Django queryset is a `List Item`; `Item.objects.get(id=i)` is `getItem`;
* each mutating endpoint returns `DB × Except ApiError α`; `transaction.atomic`
  is the `atomic` wrapper: on an error the caller keeps the original `DB`
  (rollback), on success the returned `DB` replaces it (commit);
* Python dynamic attributes set on row objects (the flat-view flags) are a
  string list `attrs` on the row; `getattr(obj, f, False)` is `attrs.contains f`;
* pydantic `exclude_unset` semantics: an absent field is `none`; an explicit
  JSON `null` is conflated with absent (none of the claims distinguishes them).
-/

/-- An `Item` row: MPTT node with nested-set coordinates
(`tree_id`, `lft`, `rght`, `level`) plus the plain columns used by the API. -/
structure Item where
  id : Nat
  name : String
  description : Option String
  qr_code : Option String
  parent_id : Option Nat
  tree_id : Nat
  lft : Int
  rght : Int
  level : Int
  attrs : List String := []
deriving Repr, DecidableEq

/-- A stored `ComponentHistory` row: soft (nullable) foreign keys to the moved
item and its old and new parents. -/
structure HistoryEntry where
  item : Option Nat
  old_parent : Option Nat
  new_parent : Option Nat
deriving Repr, DecidableEq

/-- An `Attachment` row. -/
structure Attachment where
  id : Nat
  item_id : Nat
  file : String
  type : String
deriving Repr, DecidableEq

/-- A ninja `UploadedFile`: name, MIME content type and size in bytes. -/
structure UploadedFile where
  name : String
  content_type : String
  size : Nat
deriving Repr, DecidableEq

/-- The database state threaded through the endpoints. -/
structure DB where
  items : List Item
  history : List HistoryEntry
  attachments : List Attachment
  next_id : Nat := 1
  next_tree : Nat := 1
  next_attachment_id : Nat := 1
deriving Repr, DecidableEq

/-- `ItemCreate` request schema. -/
structure ItemCreate where
  name : String
  description : Option String := none
  parent_id : Option Nat := none
deriving Repr, DecidableEq

/-- `ItemUpdate` request schema (all fields optional; `none` = not supplied). -/
structure ItemUpdate where
  name : Option String := none
  description : Option String := none
  parent_id : Option Nat := none
deriving Repr, DecidableEq

/-- An error response: `HttpError(status, detail)` with either a plain string
detail or a field-keyed dict of message lists (as raised for
`ValidationError`s re-thrown by the endpoints as `HttpError(400, dict(e))`). -/
inductive ApiError where
  | http (status : Nat) (detail : String)
  | httpFields (status : Nat) (detail : List (String × List String))
deriving Repr, DecidableEq

/-- `Item.objects.get(id=i)` / `.filter(id=i).first()`. -/
def getItem (items : List Item) (i : Nat) : Option Item :=
  items.find? (fun x => x.id == i)

/-- Python truthiness of an optional string (an empty string is falsy). -/
def truthy : Option String → Bool
  | none => false
  | some s => !s.toList.isEmpty

/-- Python truthiness of an optional integer id (`0` is falsy). -/
def truthyId : Option Nat → Bool
  | none => false
  | some n => n != 0

/-- Modelled from the spec: the MPTT containment predicate `is_ancestor_of`
(spec 4.3): same forest and `A.left_bound < B.left_bound < B.right_bound <
A.right_bound`, strict. -/
def is_ancestor_of (a b : Item) : Bool :=
  a.tree_id == b.tree_id && a.lft < b.lft && b.lft < b.rght && b.rght < a.rght

/-- `transaction.atomic`: run the body; an exception rolls the state back to
the entry state, success commits the body's state. -/
def atomic (db : DB) (body : Except ApiError (DB × α)) : DB × Except ApiError α :=
  match body with
  | .ok (db2, a) => (db2, .ok a)
  | .error e => (db, .error e)

/-- `validate_parent_relationship` (api_fat.py lines 12-19): fetch the parent
(404 if absent); reject with 400 "Circular dependency detected" when the
parent is the item itself or a descendant of it. -/
def validate_parent_relationship (items : List Item) (item : Item)
    (parent_id : Nat) : Except ApiError Item :=
  match getItem items parent_id with
  | none => .error (.http 404 "Parent item not found")
  | some parent =>
    if parent = item ∨ is_ancestor_of item parent then
      .error (.http 400 "Circular dependency detected")
    else
      .ok parent

section MoveModel

/-- `x` lies in `n`'s subtree interval: same forest, `n.lft ≤ x.lft` and
`x.rght ≤ n.rght`. -/
def inSubtree (n x : Item) : Bool :=
  x.tree_id == n.tree_id && n.lft ≤ x.lft && x.rght ≤ n.rght

/-- Ids of the rows of `n`'s subtree (computed once, against the coordinates
before any rewrite, so later shifts cannot change the member set). -/
def subtreeIds (items : List Item) (n : Item) : List Nat :=
  (items.filter (fun x => inSubtree n x)).map (fun x => x.id)

/-- Width of `n`'s interval, `right_bound - left_bound + 1` (spec 4.2). -/
def moveWidth (n : Item) : Int := n.rght - n.lft + 1

/-- Detach step on one row (spec 4.2, Move step 2): compact the source forest
outside `n`'s subtree by the subtree width; subtree rows and other forests
keep their coordinates. -/
def moveDetach (sids : List Nat) (n : Item) (w : Int) (x : Item) : Item :=
  if sids.contains x.id ∨ x.tree_id ≠ n.tree_id then x
  else { x with lft := if n.rght < x.lft then x.lft - w else x.lft,
                rght := if n.rght < x.rght then x.rght - w else x.rght }

/-- Gap step on one row (spec 4.2, Move step 3 / Insert): open a gap of the
subtree's width immediately before the destination parent's `right_bound`. -/
def moveGap (sids : List Nat) (p1 : Item) (w : Int) (x : Item) : Item :=
  if sids.contains x.id ∨ x.tree_id ≠ p1.tree_id then x
  else { x with lft := if p1.rght ≤ x.lft then x.lft + w else x.lft,
                rght := if p1.rght ≤ x.rght then x.rght + w else x.rght }

/-- Placement step on one row (spec 4.2, Move steps 3-4): shift the subtree
into the opened gap by a single offset, rewrite depths by the net delta, the
forest id to the destination's, and `n`'s parent reference to the new
parent. -/
def movePlace (sids : List Nat) (n p1 : Item) (x : Item) : Item :=
  if sids.contains x.id then
    { x with tree_id := p1.tree_id,
             lft := x.lft - n.lft + p1.rght,
             rght := x.rght - n.lft + p1.rght,
             level := x.level - n.level + p1.level + 1,
             parent_id := if x.id = n.id then some p1.id else x.parent_id }
  else x

/-- Placement step for a move to root (spec 4.2): the subtree becomes a fresh
forest starting at `left_bound = 1`, depth shifted to make `n` a root, and
`n`'s parent reference cleared. -/
def movePlaceRoot (sids : List Nat) (n : Item) (freshForest : Nat) (x : Item) : Item :=
  if sids.contains x.id then
    { x with tree_id := freshForest,
             lft := x.lft - n.lft + 1,
             rght := x.rght - n.lft + 1,
             level := x.level - n.level,
             parent_id := if x.id = n.id then none else x.parent_id }
  else x

/-- Modelled from the spec: the Move rewrite (spec 4.2, steps 1-4), i.e. what
MPTT's `move_to` does to the stored rows.  Detach the subtree's gap from the
source forest, re-insert immediately before the destination parent's
`right_bound` (or into a fresh forest for a move to root), preserving the
subtree's internal structure.  No history row is written here: the API layer
writes it explicitly. -/
def move_to (items : List Item) (n : Item) (p : Option Item)
    (freshForest : Nat) : List Item :=
  match p with
  | none =>
    (items.map (moveDetach (subtreeIds items n) n (moveWidth n))).map
      (movePlaceRoot (subtreeIds items n) n freshForest)
  | some p0 =>
    match (items.map (moveDetach (subtreeIds items n) n (moveWidth n))).find?
        (fun x => x.id == p0.id) with
    | none => items.map (moveDetach (subtreeIds items n) n (moveWidth n))
    | some p1 =>
      ((items.map (moveDetach (subtreeIds items n) n (moveWidth n))).map
        (moveGap (subtreeIds items n) p1 (moveWidth n))).map
        (movePlace (subtreeIds items n) n p1)

end MoveModel

/-! ## Query engine (ordering, ancestors, descendants, children) -/

/-- Comparison of rows by `left_bound`, the sort key of every MPTT queryset. -/
def lftLE (a b : Item) : Prop := a.lft ≤ b.lft

instance : DecidableRel lftLE := fun a b => inferInstanceAs (Decidable (a.lft ≤ b.lft))

instance : IsTotal Item lftLE := ⟨fun a b => Int.le_total a.lft b.lft⟩

instance : IsTrans Item lftLE := ⟨fun _ _ _ h1 h2 => le_trans h1 h2⟩

/-- A queryset ordered by `lft` ascending (MPTT's default ordering). -/
def order_by_lft (l : List Item) : List Item := List.insertionSort lftLE l

/-- Modelled from the spec: MPTT's `get_ancestors(include_self)` (spec 4.3):
same forest, `left_bound ≤ N.left_bound` and `right_bound ≥ N.right_bound`
(minus `N` itself when excluded), ordered by `left_bound` ascending. -/
def get_ancestors (items : List Item) (n : Item) (include_self : Bool) : List Item :=
  order_by_lft (items.filter (fun x =>
    x.tree_id == n.tree_id && x.lft ≤ n.lft && n.rght ≤ x.rght &&
      (include_self || x.id != n.id)))

/-- Modelled from the spec: MPTT's `get_descendants(include_self)` (spec 4.3):
same forest, `left_bound` in `[N.left_bound (+1 if excluding self),
N.right_bound]`, ordered by `left_bound` ascending. -/
def get_descendants (items : List Item) (n : Item) (include_self : Bool) : List Item :=
  order_by_lft (items.filter (fun x =>
    x.tree_id == n.tree_id &&
      (if include_self then n.lft else n.lft + 1) ≤ x.lft && x.lft ≤ n.rght))

/-- Modelled from the spec: MPTT's `get_children()`: the direct children of a
node (spec 3: children are owned by a node via the parent reference), ordered
by `left_bound`. -/
def get_children (items : List Item) (obj : Item) : List Item :=
  order_by_lft (items.filter (fun x => x.parent_id == some obj.id))

/-- `ItemOut.resolve_children` (api_fat.py lines 116-122): if the row carries
the dynamic attribute `_is_flat_view` (default `False`), serialize an empty
child list; otherwise (every `Item` has `get_children`) serialize the node's
children. -/
def resolve_children (items : List Item) (obj : Item) : List Item :=
  if obj.attrs.contains "_is_flat_view" then []
  else get_children items obj

/-- `list_items` (api_fat.py lines 137-151): hierarchical mode returns the
root nodes; flat mode returns every row after setting the dynamic attribute
`is_flat_view` on it. -/
def list_items (items : List Item) (hierarchical : Bool) : List Item :=
  if hierarchical then items.filter (fun x => x.parent_id == none)
  else items.map (fun it => { it with attrs := "is_flat_view" :: it.attrs })

/-- `get_item_tree` (api_fat.py lines 153-160): the item and all of its
descendants, 404 when the item does not exist. -/
def get_item_tree (db : DB) (item_id : Nat) : Except ApiError (List Item) :=
  match getItem db.items item_id with
  | none => .error (.http 404 "Item not found")
  | some item => .ok (get_descendants db.items item true)

/-- `get_breadcrumb` (api_fat.py lines 162-169): the path from the root to
the item, 404 when the item does not exist. -/
def get_breadcrumb (db : DB) (item_id : Nat) : Except ApiError (List Item) :=
  match getItem db.items item_id with
  | none => .error (.http 404 "Item not found")
  | some item => .ok (get_ancestors db.items item true)

/-! ## Validation (`full_clean`) and the write endpoints -/

/-- A set of field constraints: for each field name, the validator returning
that field's list of problem messages (empty = field is fine).  The concrete
constraints live in the absent models module, so the endpoints are
parametrised by them. -/
abbrev FieldChecks : Type := List (String × (Item → List String))

/-- All offending fields of an item with all their messages. -/
def run_validators (checks : FieldChecks) (it : Item) : List (String × List String) :=
  (checks.map (fun c => (c.1, c.2 it))).filter (fun p => !p.2.isEmpty)

/-- Modelled from the spec: Django's `Model.full_clean` as used here (spec 7):
run every field's validators, collect a field-keyed list of messages for all
offending fields, and raise one `ValidationError` carrying the whole dict
rather than stopping at the first failing field. -/
def full_clean (checks : FieldChecks) (it : Item) : Except ApiError Unit :=
  let errs := run_validators checks it
  if errs.isEmpty then .ok ()
  else .error (.httpFields 400 errs)

/-- Modelled from the spec: the Insert rewrite (spec 4.2).  A root gets a
fresh forest and coordinates `(1, 2)`, depth 0.  A child opens a width-2 gap
immediately before the parent's `right_bound` and occupies it at depth
`parent.depth + 1`.  (A truthy but dangling `parent_id` never reaches this
point: the endpoints 404 first.) -/
def insert_item (db : DB) (cand : Item) : DB × Item :=
  match cand.parent_id.bind (fun pid => getItem db.items pid) with
  | none =>
    let it := { cand with id := db.next_id, tree_id := db.next_tree,
                          lft := 1, rght := 2, level := 0 }
    ({ db with items := db.items ++ [it],
               next_id := db.next_id + 1, next_tree := db.next_tree + 1 }, it)
  | some p =>
    let shifted := db.items.map (fun x =>
      if x.tree_id == p.tree_id then
        { x with lft := if p.rght ≤ x.lft then x.lft + 2 else x.lft,
                 rght := if p.rght ≤ x.rght then x.rght + 2 else x.rght }
      else x)
    let it := { cand with id := db.next_id, tree_id := p.tree_id,
                          lft := p.rght, rght := p.rght + 1, level := p.level + 1 }
    ({ db with items := shifted ++ [it], next_id := db.next_id + 1 }, it)

/-- Modelled from the spec: MPTT's `save()` on an existing row.  When the
parent reference changed, the save performs the Move rewrite of spec 4.2
(and it alone: no history row); otherwise it is a plain attribute edit with
no coordinate change (spec 3, Lifecycle). -/
def save_item (db : DB) (orig updated : Item) : DB :=
  if updated.parent_id = orig.parent_id then
    { db with items := db.items.map (fun x =>
        if x.id = orig.id then
          { x with name := updated.name, description := updated.description }
        else x) }
  else
    let p := updated.parent_id.bind (fun pid => getItem db.items pid)
    let moved := move_to db.items orig p db.next_tree
    { db with
      items := moved.map (fun x =>
        if x.id = orig.id then
          { x with name := updated.name, description := updated.description }
        else x),
      next_tree := if p.isNone then db.next_tree + 1 else db.next_tree }

/-- Apply an `ItemUpdate`'s supplied fields to a row
(`for attr, value in data.dict(exclude_unset=True).items(): setattr(...)`). -/
def apply_update (it : Item) (data : ItemUpdate) : Item :=
  { it with
    name := data.name.getD it.name,
    description := match data.description with
      | some d => some d
      | none => it.description,
    parent_id := match data.parent_id with
      | some p => some p
      | none => it.parent_id }

/-- The in-memory row `Item(**data.dict())` built by `create_item` before
validation and save (coordinates are only assigned by the save). -/
def create_candidate (data : ItemCreate) : Item :=
  { id := 0, name := data.name, description := data.description,
    qr_code := none, parent_id := data.parent_id,
    tree_id := 0, lft := 0, rght := 0, level := 0 }

/-- `create_item` (api_fat.py lines 175-189): inside one transaction, check a
truthy `parent_id` exists (404), build the row from the payload, `full_clean`
it (a `ValidationError` becomes `HttpError(400, dict(e))`), then save it. -/
def create_item (checks : FieldChecks) (db : DB) (data : ItemCreate) :
    DB × Except ApiError Item :=
  atomic db (
    let gate : Except ApiError Unit :=
      if truthyId data.parent_id then
        match getItem db.items (data.parent_id.getD 0) with
        | none => .error (.http 404 "Parent item not found")
        | some _ => .ok ()
      else .ok ()
    match gate with
    | .error e => .error e
    | .ok _ =>
      match full_clean checks (create_candidate data) with
      | .error e => .error e
      | .ok _ => .ok (insert_item db (create_candidate data)))

/-- `update_item` (api_fat.py lines 200-218): inside one transaction, fetch
the item (404), validate a supplied `parent_id` (404/400), apply the supplied
fields, `full_clean` (400 with the field dict), then save.  No
`ComponentHistory` row is written by this endpoint. -/
def update_item (checks : FieldChecks) (db : DB) (item_id : Nat)
    (data : ItemUpdate) : DB × Except ApiError Item :=
  atomic db (
    match getItem db.items item_id with
    | none => .error (.http 404 "Item not found")
    | some item =>
      let gate : Except ApiError Unit :=
        match data.parent_id with
        | some pid =>
          match validate_parent_relationship db.items item pid with
          | .error e => .error e
          | .ok _ => .ok ()
        | none => .ok ()
      match gate with
      | .error e => .error e
      | .ok _ =>
        let updated := apply_update item data
        match full_clean checks updated with
        | .error e => .error e
        | .ok _ => .ok (save_item db item updated, updated))

/-- `change_parent` (api_fat.py lines 281-304): inside one transaction, fetch
the item (404), capture its old parent, validate the requested parent
(404/400 via `validate_parent_relationship`) or take `None`, `move_to` the
new parent, refresh the row, and append exactly one `ComponentHistory` row
recording item, old parent and new parent. -/
def change_parent (db : DB) (item_id : Nat) (data : ItemUpdate) :
    DB × Except ApiError Item :=
  atomic db (
    match getItem db.items item_id with
    | none => .error (.http 404 "Item not found")
    | some item =>
      let old_parent := item.parent_id
      let vp : Except ApiError (Option Item) :=
        match data.parent_id with
        | some pid =>
          match validate_parent_relationship db.items item pid with
          | .error e => .error e
          | .ok p => .ok (some p)
        | none => .ok none
      match vp with
      | .error e => .error e
      | .ok new_parent =>
        let items2 := move_to db.items item new_parent db.next_tree
        match getItem items2 item_id with
        | none => .error (.http 404 "Item not found")
        | some item2 =>
          .ok ({ db with
                 items := items2,
                 next_tree := if new_parent.isNone then db.next_tree + 1
                              else db.next_tree,
                 history := db.history ++
                   [{ item := some item2.id, old_parent := old_parent,
                      new_parent := new_parent.map (fun p => p.id) }] },
               item2))

/-! ## Search -/

/-- Substring test on character lists. -/
def containsSub (hay needle : List Char) : Bool :=
  needle.isPrefixOf hay ||
    match hay with
    | [] => false
    | _ :: t => containsSub t needle

/-- Django's `__icontains`: case-insensitive substring match. -/
def icontains (hay needle : String) : Bool :=
  containsSub (hay.toList.map Char.toLower) (needle.toList.map Char.toLower)

/-- The disjunction of the active search filters of `search_items`
(api_fat.py lines 245-255): exact `qr_code` match, `name__icontains`,
`description__icontains`; a filter is active only when its parameter is
truthy. -/
def direct_match (q n d : Option String) (x : Item) : Bool :=
  (truthy q && x.qr_code == q) ||
  (truthy n && icontains x.name (n.getD "")) ||
  (truthy d && icontains (x.description.getD "") (d.getD ""))

/-- `.distinct()` on the id column: keep the first row for each id. -/
def dedupGo (seen : List Nat) : List Item → List Item
  | [] => []
  | x :: xs =>
    if x.id ∈ seen then dedupGo seen xs
    else x :: dedupGo (x.id :: seen) xs

/-- Deduplicate a row list by id, keeping first occurrences. -/
def dedupById (l : List Item) : List Item := dedupGo [] l

/-- `search_items` (api_fat.py lines 240-280): with at least one truthy
parameter, take the direct matches of the OR of the active filters, then for
each direct match union in the rows with `Q(pk=hit.pk)` or
`Q(tree_id=hit.tree_id, lft__gt=hit.lft, rght__lt=hit.rght)`, and
deduplicate; with no truthy parameter return the empty queryset. -/
def search_items (items : List Item) (q n d : Option String) : List Item :=
  if truthy q || truthy n || truthy d then
    let direct := items.filter (direct_match q n d)
    let unioned := direct.foldl (fun acc hit =>
      acc ++ items.filter (fun x =>
        x.id == hit.id ||
          (x.tree_id == hit.tree_id && hit.lft < x.lft && x.rght < hit.rght))) []
    dedupById unioned
  else []

/-! ## Attachments -/

/-- Python `str.startswith` (character-wise). -/
def startsWith (s pre : String) : Bool := pre.toList.isPrefixOf s.toList

/-- `create_attachment` (api_fat.py lines 394-416): inside one transaction,
fetch the item (404); reject a content type that does not start with
`image/`, `application/` or `text/`, then a size above `10 * 1024 * 1024`
bytes (each a `ValidationError` re-raised as `HttpError(400, dict(e))`);
otherwise store an attachment with the file and its content type.
(`Attachment.full_clean` lives in the absent models module; modelled from the
spec, which delegates attachment size/type validation to this endpoint
(spec 6), as imposing no further constraint.) -/
def create_attachment (db : DB) (item_id : Nat) (file : UploadedFile) :
    DB × Except ApiError Attachment :=
  atomic db (
    match getItem db.items item_id with
    | none => .error (.http 404 "Item not found")
    | some item =>
      if !(startsWith file.content_type "image/" ||
           startsWith file.content_type "application/" ||
           startsWith file.content_type "text/") then
        .error (.httpFields 400 [("file", ["Unsupported file type"])])
      else if file.size > 10 * 1024 * 1024 then
        .error (.httpFields 400 [("file", ["File size exceeds 10MB limit"])])
      else
        let att : Attachment :=
          { id := db.next_attachment_id, item_id := item.id,
            file := file.name, type := file.content_type }
        .ok ({ db with attachments := db.attachments ++ [att],
                       next_attachment_id := db.next_attachment_id + 1 },
             att))

/-! ## History serialization (`ComponentHistorySchema`) -/

/-- A history row as seen by the serializer: each soft foreign key already
resolved to the referenced `Item` row, or `none` when that row was deleted. -/
structure HistoryRow where
  item : Option Item
  old_parent : Option Item
  new_parent : Option Item
deriving Repr, DecidableEq

/-- `ComponentHistorySchema.resolve_item` (api_fat.py lines 55-57). -/
def resolve_item (obj : HistoryRow) : Option Nat :=
  match obj.item with
  | some it => some it.id
  | none => none

/-- `ComponentHistorySchema.resolve_item_name` (api_fat.py lines 67-69). -/
def resolve_item_name (obj : HistoryRow) : String :=
  match obj.item with
  | some it => it.name
  | none => "Deleted Item"

/-- `ComponentHistorySchema.resolve_old_parent_name` (api_fat.py lines 71-73). -/
def resolve_old_parent_name (obj : HistoryRow) : String :=
  match obj.old_parent with
  | some it => it.name
  | none => "Storage"

/-- `ComponentHistorySchema.resolve_new_parent_name` (api_fat.py lines 75-77). -/
def resolve_new_parent_name (obj : HistoryRow) : String :=
  match obj.new_parent with
  | some it => it.name
  | none => "Storage"

/-! ## Concrete test fixtures (the Warehouse / Shelf-A / Bin-1 scenario of
spec 8, and a two-root store) -/

/-- Root "Warehouse", interval (1, 6), depth 0. -/
def itemW : Item :=
  { id := 1, name := "Warehouse", description := none, qr_code := none,
    parent_id := none, tree_id := 1, lft := 1, rght := 6, level := 0 }

/-- "Shelf-A" under Warehouse, interval (2, 5), depth 1. -/
def itemS : Item :=
  { id := 2, name := "Shelf-A", description := none, qr_code := none,
    parent_id := some 1, tree_id := 1, lft := 2, rght := 5, level := 1 }

/-- "Bin-1" under Shelf-A, interval (3, 4), depth 2. -/
def itemB : Item :=
  { id := 3, name := "Bin-1", description := none, qr_code := none,
    parent_id := some 2, tree_id := 1, lft := 3, rght := 4, level := 2 }

/-- The three-node store of spec 8. -/
def dbWSB : DB :=
  { items := [itemW, itemS, itemB], history := [], attachments := [],
    next_id := 4, next_tree := 2, next_attachment_id := 1 }

/-- A root in its own forest, no children. -/
def itemR2 : Item :=
  { id := 2, name := "Shelf", description := none, qr_code := none,
    parent_id := none, tree_id := 2, lft := 1, rght := 2, level := 0 }

/-- A store of two independent single-node forests. -/
def dbTwoRoots : DB :=
  { items := [{ itemW with rght := 2 }, itemR2], history := [], attachments := [],
    next_id := 3, next_tree := 3, next_attachment_id := 1 }


/-! ## Claim theorems -/

/-- C9: for every history row whose referenced item or parent has been
deleted (the soft reference resolved to `none`), display resolution is total
and falls back to the sentinels: the item name resolves to "Deleted Item"
and a null old/new parent resolves to "Storage". -/
theorem history_resolution_sentinels (row : HistoryRow) :
    (row.item = none → resolve_item_name row = "Deleted Item") ∧
    (row.old_parent = none → resolve_old_parent_name row = "Storage") ∧
    (row.new_parent = none → resolve_new_parent_name row = "Storage") := by
  refine ⟨fun hi => ?_, fun ho => ?_, fun hn => ?_⟩
  · simp [resolve_item_name, hi]
  · simp [resolve_old_parent_name, ho]
  · simp [resolve_new_parent_name, hn]

/-- Witness for `history_resolution_sentinels`: the all-deleted row. -/
theorem history_resolution_sentinels_witness :
    resolve_item_name ⟨none, none, none⟩ = "Deleted Item" ∧
    resolve_old_parent_name ⟨none, none, none⟩ = "Storage" ∧
    resolve_new_parent_name ⟨none, none, none⟩ = "Storage" := by
  have h := history_resolution_sentinels ⟨none, none, none⟩
  exact ⟨h.1 rfl, h.2.1 rfl, h.2.2 rfl⟩

/-- C5: a search invocation in which no predicate is supplied (no truthy
name, description or external code) returns the empty set, not all nodes. -/
theorem search_no_predicate_empty (items : List Item) (q n d : Option String)
    (hq : truthy q = false) (hn : truthy n = false) (hd : truthy d = false) :
    search_items items q n d = [] := by
  simp [search_items, hq, hn, hd]

/-- Witness for `search_no_predicate_empty`: the empty query on a non-empty
store. -/
theorem search_no_predicate_empty_witness :
    search_items dbWSB.items none none none = [] :=
  search_no_predicate_empty dbWSB.items none none none rfl rfl rfl

/-- C3: in flat listing mode each returned row does carry a flat-view flag,
but the flag the endpoint sets (`is_flat_view`) is not the attribute the
serializer consumes (`_is_flat_view`), so a flat-listed item with children is
still serialized with a non-empty child list: on the Warehouse/Shelf-A/Bin-1
store the flat-listed Warehouse row serializes children `[Shelf-A]`. -/
theorem flat_view_flag_not_consumed :
    (list_items dbWSB.items false).head? = some { itemW with attrs := ["is_flat_view"] } ∧
    ({ itemW with attrs := ["is_flat_view"] } : Item).attrs.contains "is_flat_view" = true ∧
    resolve_children dbWSB.items { itemW with attrs := ["is_flat_view"] } = [itemS] := by
  refine ⟨?_, by decide, ?_⟩ <;> decide

/-- C10: attachment upload gate, given the item exists: a content type that
starts with none of `image/`, `application/`, `text/` is rejected with a 400
field error and no state change; an accepted type with size above
`10 * 1024 * 1024` bytes is rejected likewise; otherwise an attachment
carrying the file and its content type is appended for the item. -/
theorem attachment_type_size_gate (db : DB) (item_id : Nat)
    (file : UploadedFile) (item : Item)
    (hitem : getItem db.items item_id = some item) :
    ((startsWith file.content_type "image/" ||
      startsWith file.content_type "application/" ||
      startsWith file.content_type "text/") = false →
        create_attachment db item_id file
          = (db, .error (.httpFields 400 [("file", ["Unsupported file type"])]))) ∧
    ((startsWith file.content_type "image/" ||
      startsWith file.content_type "application/" ||
      startsWith file.content_type "text/") = true →
      file.size > 10 * 1024 * 1024 →
        create_attachment db item_id file
          = (db, .error (.httpFields 400 [("file", ["File size exceeds 10MB limit"])]))) ∧
    ((startsWith file.content_type "image/" ||
      startsWith file.content_type "application/" ||
      startsWith file.content_type "text/") = true →
      file.size ≤ 10 * 1024 * 1024 →
        create_attachment db item_id file
          = ({ db with
               attachments := db.attachments ++
                 [{ id := db.next_attachment_id, item_id := item.id,
                    file := file.name, type := file.content_type }],
               next_attachment_id := db.next_attachment_id + 1 },
             .ok { id := db.next_attachment_id, item_id := item.id,
                   file := file.name, type := file.content_type })) := by
  refine ⟨fun hbad => ?_, fun hgood hsize => ?_, fun hgood hsize => ?_⟩
  · simp [create_attachment, atomic, hitem, hbad]
  · simp [create_attachment, atomic, hitem, hgood, hsize]
  · simp [create_attachment, atomic, hitem, hgood, Nat.not_lt.mpr hsize]

/-- Witness for `attachment_type_size_gate`: a video upload is rejected, an
oversized PDF is rejected, a small PDF is stored. -/
theorem attachment_type_size_gate_witness :
    create_attachment dbWSB 1 ⟨"clip.mp4", "video/mp4", 5⟩
      = (dbWSB, .error (.httpFields 400 [("file", ["Unsupported file type"])])) ∧
    create_attachment dbWSB 1 ⟨"big.pdf", "application/pdf", 10485761⟩
      = (dbWSB, .error (.httpFields 400 [("file", ["File size exceeds 10MB limit"])])) ∧
    create_attachment dbWSB 1 ⟨"ok.pdf", "application/pdf", 4⟩
      = ({ dbWSB with
           attachments := [{ id := 1, item_id := 1, file := "ok.pdf",
                             type := "application/pdf" }],
           next_attachment_id := 2 },
         .ok { id := 1, item_id := 1, file := "ok.pdf", type := "application/pdf" }) := by
  refine ⟨?_, ?_, ?_⟩
  · exact (attachment_type_size_gate dbWSB 1 ⟨"clip.mp4", "video/mp4", 5⟩ itemW
      (by decide)).1 (by decide)
  · exact (attachment_type_size_gate dbWSB 1 ⟨"big.pdf", "application/pdf", 10485761⟩ itemW
      (by decide)).2.1 (by decide) (by decide)
  · exact (attachment_type_size_gate dbWSB 1 ⟨"ok.pdf", "application/pdf", 4⟩ itemW
      (by decide)).2.2 (by decide) (by decide)

/-- C2: a reparent request whose target is the node itself or one of its own
descendants is rejected with HTTP 400 "Circular dependency detected", with
the store (all parents and coordinates) left untouched and the history log
not extended. -/
theorem circular_move_rejected_state_unchanged
    (db : DB) (item_id pid : Nat) (data : ItemUpdate) (item parentIt : Item)
    (hitem : getItem db.items item_id = some item)
    (hdata : data.parent_id = some pid)
    (hpar : getItem db.items pid = some parentIt)
    (hcirc : parentIt = item ∨ is_ancestor_of item parentIt = true) :
    change_parent db item_id data
      = (db, .error (.http 400 "Circular dependency detected")) := by
  rcases hcirc with h | h
  · subst h
    simp [change_parent, atomic, validate_parent_relationship, hitem, hdata, hpar]
  · simp [change_parent, atomic, validate_parent_relationship, hitem, hdata, hpar, h]

/-- Witness for `circular_move_rejected_state_unchanged`: moving "Warehouse"
under its grandchild "Bin-1" fails and the store is unchanged (so the
history log length does not increase). -/
theorem circular_move_rejected_state_unchanged_witness :
    change_parent dbWSB 1 { parent_id := some 3 }
      = (dbWSB, .error (.http 400 "Circular dependency detected")) :=
  circular_move_rejected_state_unchanged dbWSB 1 3 { parent_id := some 3 }
    itemW itemB (by decide) rfl (by decide) (.inr (by decide))

/-- Every failing field's validator output reaches the aggregated
`full_clean` payload in full. -/
theorem mem_run_validators (checks : FieldChecks) (it : Item) (f : String)
    (v : Item → List String) (hmem : (f, v) ∈ checks) (hne : v it ≠ []) :
    (f, v it) ∈ run_validators checks it := by
  refine List.mem_filter.mpr ⟨List.mem_map.mpr ⟨(f, v), hmem, rfl⟩, ?_⟩
  cases h : v it with
  | nil => exact absurd h hne
  | cons a t => simp

/-- C8: when the caller-supplied attributes fail field constraints, both the
create and the update endpoint fail with a 400 whose payload is the full
field-keyed error dict produced by `full_clean`, and that dict maps every
offending field to the list of all its problem messages (no stopping at the
first failing field). -/
theorem validation_aggregates_all_field_problems
    (checks : FieldChecks) (db : DB) (dataC : ItemCreate)
    (item_id : Nat) (dataU : ItemUpdate) (item : Item) :
    ((truthyId dataC.parent_id = false ∨
        (getItem db.items (dataC.parent_id.getD 0)).isSome) →
     run_validators checks (create_candidate dataC) ≠ [] →
       create_item checks db dataC
         = (db, .error (.httpFields 400
             (run_validators checks (create_candidate dataC))))) ∧
    (getItem db.items item_id = some item →
     (dataU.parent_id = none ∨
        ∃ pid p, dataU.parent_id = some pid ∧
          validate_parent_relationship db.items item pid = .ok p) →
     run_validators checks (apply_update item dataU) ≠ [] →
       update_item checks db item_id dataU
         = (db, .error (.httpFields 400
             (run_validators checks (apply_update item dataU))))) ∧
    (∀ (it : Item) (f : String) (v : Item → List String),
       (f, v) ∈ checks → v it ≠ [] → (f, v it) ∈ run_validators checks it) := by
  refine ⟨fun hgate hne => ?_, fun hitem hgate hne => ?_,
          fun it f v hm hne => mem_run_validators checks it f v hm hne⟩
  · have hie : (run_validators checks (create_candidate dataC)).isEmpty = false := by
      cases h : run_validators checks (create_candidate dataC) with
      | nil => exact absurd h hne
      | cons a t => rfl
    rcases hgate with h | h
    · simp [create_item, atomic, full_clean, h, hie]
    · obtain ⟨p, hp⟩ := Option.isSome_iff_exists.mp h
      by_cases ht : truthyId dataC.parent_id
      · simp [create_item, atomic, full_clean, ht, hp, hie]
      · simp [create_item, atomic, full_clean, ht, hie]
  · have hie : (run_validators checks (apply_update item dataU)).isEmpty = false := by
      cases h : run_validators checks (apply_update item dataU) with
      | nil => exact absurd h hne
      | cons a t => rfl
    rcases hgate with h | ⟨pid, p, hpid, hval⟩
    · simp [update_item, atomic, full_clean, hitem, h, hie]
    · simp [update_item, atomic, full_clean, hitem, hpid, hval, hie]

/-- Witness for `validation_aggregates_all_field_problems`: with a blank-name
constraint and a description length constraint, creating a blank-named item
with a long description reports both fields at once, and updating an item to
a blank name reports the name field. -/
theorem validation_aggregates_all_field_problems_witness :
    create_item
      [("name", fun it => if it.name = "" then ["This field cannot be blank."] else []),
       ("description", fun it =>
          if 3 < (it.description.getD "").length then ["Too long."] else [])]
      dbWSB { name := "", description := some "abcd" }
      = (dbWSB, .error (.httpFields 400
          [("name", ["This field cannot be blank."]),
           ("description", ["Too long."])])) ∧
    update_item
      [("name", fun it => if it.name = "" then ["This field cannot be blank."] else []),
       ("description", fun it =>
          if 3 < (it.description.getD "").length then ["Too long."] else [])]
      dbWSB 1 { name := some "" }
      = (dbWSB, .error (.httpFields 400
          [("name", ["This field cannot be blank."])])) := by
  constructor
  · exact ((validation_aggregates_all_field_problems _ dbWSB
      { name := "", description := some "abcd" } 1 {} itemW).1
        (Or.inl rfl) (by decide)).trans (by rfl)
  · exact ((validation_aggregates_all_field_problems _ dbWSB
      { name := "", description := some "abcd" } 1 { name := some "" } itemW).2.1
        (by decide) (Or.inl rfl) (by decide)).trans (by rfl)

/-- Sorting by `lft` preserves membership. -/
theorem mem_order_by_lft {l : List Item} {x : Item} :
    x ∈ order_by_lft l ↔ x ∈ l :=
  (List.perm_insertionSort lftLE l).mem_iff

/-- `order_by_lft` sorts by `lft` ascending. -/
theorem sorted_order_by_lft (l : List Item) : List.Sorted lftLE (order_by_lft l) :=
  List.sorted_insertionSort lftLE l

/-- In a list sorted by `lft`, an element whose `lft` is strictly below every
other element's is the head. -/
theorem head?_of_sorted_strict_min {l : List Item} (hs : List.Sorted lftLE l)
    {x : Item} (hx : x ∈ l) (hmin : ∀ y ∈ l, y = x ∨ x.lft < y.lft) :
    l.head? = some x := by
  cases l with
  | nil => cases hx
  | cons a t =>
    have ha : a = x := by
      rcases hmin a (List.mem_cons_self a t) with h | h
      · exact h
      · rcases List.mem_cons.mp hx with h2 | h2
        · exact h2.symm
        · have hle : lftLE a x := List.rel_of_sorted_cons hs x h2
          exact absurd h (not_lt.mpr hle)
    simp [ha]

/-- In a list sorted by `lft`, an element whose `lft` is strictly above every
other element's is the last element. -/
theorem getLast?_of_sorted_strict_max {l : List Item} (hs : List.Sorted lftLE l)
    {x : Item} (hx : x ∈ l) (hmax : ∀ y ∈ l, y = x ∨ y.lft < x.lft) :
    l.getLast? = some x := by
  induction l with
  | nil => cases hx
  | cons a t ih =>
    cases t with
    | nil =>
      rcases List.mem_cons.mp hx with h | h
      · simp [h]
      · cases h
    | cons b u =>
      rw [List.getLast?_cons_cons]
      apply ih hs.of_cons ?_ (fun y hy => hmax y (List.mem_cons_of_mem a hy))
      rcases List.mem_cons.mp hx with h | h
      · subst h
        rcases hmax b (List.mem_cons_of_mem x (List.mem_cons_self b u)) with hb | hb
        · rw [← hb]
          exact List.mem_cons_self b u
        · have hle : lftLE x b :=
            List.rel_of_sorted_cons hs b (List.mem_cons_self b u)
          exact absurd hb (not_lt.mpr hle)
      · exact h

/-- C7: the descendants view of an existing node `N` consists of exactly the
rows of `N`'s forest whose `left_bound` lies in `[N.left_bound,
N.right_bound]`, and the returned sequence starts with `N` itself. -/
theorem item_tree_membership_starts_with_item
    (db : DB) (item_id : Nat) (N : Item)
    (hN : getItem db.items item_id = some N)
    (hlr : N.lft < N.rght)
    (hdis : ∀ x ∈ db.items, ∀ y ∈ db.items,
      x.tree_id = y.tree_id → x.lft = y.lft → x = y) :
    get_item_tree db item_id = .ok (get_descendants db.items N true) ∧
    (∀ x, x ∈ get_descendants db.items N true ↔
       x ∈ db.items ∧ x.tree_id = N.tree_id ∧ N.lft ≤ x.lft ∧ x.lft ≤ N.rght) ∧
    (get_descendants db.items N true).head? = some N := by
  have hNmem : N ∈ db.items := List.mem_of_find?_eq_some hN
  have hmem : ∀ x, x ∈ get_descendants db.items N true ↔
      x ∈ db.items ∧ x.tree_id = N.tree_id ∧ N.lft ≤ x.lft ∧ x.lft ≤ N.rght := by
    intro x
    unfold get_descendants order_by_lft
    rw [(List.perm_insertionSort lftLE _).mem_iff, List.mem_filter]
    simp [and_assoc]
  refine ⟨by simp [get_item_tree, hN], hmem, ?_⟩
  apply head?_of_sorted_strict_min (sorted_order_by_lft _)
  · exact (hmem N).mpr ⟨hNmem, rfl, le_refl _, le_of_lt hlr⟩
  · intro y hy
    obtain ⟨hyi, hyt, hyl, _⟩ := (hmem y).mp hy
    rcases eq_or_lt_of_le hyl with h | h
    · exact Or.inl (hdis y hyi N hNmem hyt h.symm)
    · exact Or.inr h

/-- Witness for `item_tree_membership_starts_with_item`: the Warehouse
subtree query returns its own row first and contains Shelf-A. -/
theorem item_tree_membership_starts_with_item_witness :
    get_item_tree dbWSB 1 = .ok (get_descendants dbWSB.items itemW true) ∧
    itemS ∈ get_descendants dbWSB.items itemW true ∧
    (get_descendants dbWSB.items itemW true).head? = some itemW := by
  have h := item_tree_membership_starts_with_item dbWSB 1 itemW
    (by decide) (by decide) (by decide)
  exact ⟨h.1, (h.2.1 itemS).mpr (by decide), h.2.2⟩

/-- C6: the breadcrumb of an existing node `N` is the ancestor chain of `N`
(rows of `N`'s forest whose interval contains `N`'s), ordered by `left_bound`
ascending, starting at the forest root and ending in `N` itself. -/
theorem breadcrumb_root_first_ends_at_item
    (db : DB) (item_id : Nat) (N r : Item)
    (hN : getItem db.items item_id = some N)
    (hr : r ∈ db.items) (hrt : r.tree_id = N.tree_id)
    (hroot : ∀ x ∈ db.items, x.tree_id = N.tree_id → r.lft ≤ x.lft ∧ x.rght ≤ r.rght)
    (hdis : ∀ x ∈ db.items, ∀ y ∈ db.items,
      x.tree_id = y.tree_id → x.lft = y.lft → x = y) :
    get_breadcrumb db item_id = .ok (get_ancestors db.items N true) ∧
    List.Sorted lftLE (get_ancestors db.items N true) ∧
    (∀ x, x ∈ get_ancestors db.items N true ↔
       x ∈ db.items ∧ x.tree_id = N.tree_id ∧ x.lft ≤ N.lft ∧ N.rght ≤ x.rght) ∧
    (get_ancestors db.items N true).getLast? = some N ∧
    (get_ancestors db.items N true).head? = some r := by
  have hNmem : N ∈ db.items := List.mem_of_find?_eq_some hN
  have hmem : ∀ x, x ∈ get_ancestors db.items N true ↔
      x ∈ db.items ∧ x.tree_id = N.tree_id ∧ x.lft ≤ N.lft ∧ N.rght ≤ x.rght := by
    intro x
    unfold get_ancestors order_by_lft
    rw [(List.perm_insertionSort lftLE _).mem_iff, List.mem_filter]
    simp [and_assoc]
  refine ⟨by simp [get_breadcrumb, hN], sorted_order_by_lft _, hmem, ?_, ?_⟩
  · apply getLast?_of_sorted_strict_max (sorted_order_by_lft _)
    · exact (hmem N).mpr ⟨hNmem, rfl, le_refl _, le_refl _⟩
    · intro y hy
      obtain ⟨hyi, hyt, hyl, _⟩ := (hmem y).mp hy
      rcases eq_or_lt_of_le hyl with h | h
      · exact Or.inl (hdis y hyi N hNmem hyt h)
      · exact Or.inr h
  · apply head?_of_sorted_strict_min (sorted_order_by_lft _)
    · obtain ⟨h1, h2⟩ := hroot N hNmem rfl
      exact (hmem r).mpr ⟨hr, hrt, h1, h2⟩
    · intro y hy
      obtain ⟨hyi, hyt, _, _⟩ := (hmem y).mp hy
      rcases eq_or_lt_of_le (hroot y hyi hyt).1 with h | h
      · exact Or.inl (hdis y hyi r hr (hyt.trans hrt.symm) h.symm)
      · exact Or.inr h

/-- Witness for `breadcrumb_root_first_ends_at_item`: Bin-1's breadcrumb is
Warehouse-first and ends in Bin-1. -/
theorem breadcrumb_root_first_ends_at_item_witness :
    get_breadcrumb dbWSB 3 = .ok (get_ancestors dbWSB.items itemB true) ∧
    (get_ancestors dbWSB.items itemB true).getLast? = some itemB ∧
    (get_ancestors dbWSB.items itemB true).head? = some itemW := by
  have h := breadcrumb_root_first_ends_at_item dbWSB 3 itemB itemW
    (by decide) (by decide) (by decide) (by decide) (by decide)
  exact ⟨h.1, h.2.2.2.1, h.2.2.2.2⟩

/-- Membership in the fold that unions the per-hit querysets. -/
theorem mem_foldl_union {β : Type} (f : β → List Item) (l : List β)
    (acc : List Item) (z : Item) :
    z ∈ l.foldl (fun a b => a ++ f b) acc ↔ z ∈ acc ∨ ∃ b ∈ l, z ∈ f b := by
  induction l generalizing acc with
  | nil => simp
  | cons b t ih =>
    rw [List.foldl_cons, ih]
    simp [List.mem_append, or_assoc]

/-- `dedupGo` only drops rows. -/
theorem mem_of_mem_dedupGo {seen : List Nat} {l : List Item} {x : Item}
    (h : x ∈ dedupGo seen l) : x ∈ l := by
  induction l generalizing seen with
  | nil => cases h
  | cons a t ih =>
    by_cases hc : a.id ∈ seen
    · simp only [dedupGo, if_pos hc] at h
      exact List.mem_cons_of_mem a (ih h)
    · simp only [dedupGo, if_neg hc] at h
      rcases List.mem_cons.mp h with h2 | h2
      · exact h2 ▸ List.mem_cons_self a t
      · exact List.mem_cons_of_mem a (ih h2)

/-- Every unseen id of the input list survives deduplication. -/
theorem dedupGo_covers {l : List Item} {x : Item} (hx : x ∈ l) (seen : List Nat) :
    x.id ∈ seen ∨ ∃ y ∈ dedupGo seen l, y.id = x.id := by
  induction l generalizing seen with
  | nil => cases hx
  | cons a t ih =>
    by_cases hc : a.id ∈ seen
    · rcases List.mem_cons.mp hx with rfl | h
      · exact Or.inl hc
      · simpa only [dedupGo, if_pos hc] using ih h seen
    · rcases List.mem_cons.mp hx with rfl | h
      · refine Or.inr ⟨x, ?_, rfl⟩
        simp only [dedupGo, if_neg hc]
        exact List.mem_cons_self x _
      · rcases ih h (a.id :: seen) with h2 | ⟨y, hy, hid⟩
        · rcases List.mem_cons.mp h2 with h4 | h4
          · refine Or.inr ⟨a, ?_, h4.symm⟩
            simp only [dedupGo, if_neg hc]
            exact List.mem_cons_self a _
          · exact Or.inl h4
        · refine Or.inr ⟨y, ?_, hid⟩
          simp only [dedupGo, if_neg hc]
          exact List.mem_cons_of_mem a hy

/-- Deduplication yields pairwise distinct ids, none of them already seen. -/
theorem dedupGo_ids_nodup (l : List Item) (seen : List Nat) :
    ((dedupGo seen l).map (fun x => x.id)).Nodup ∧
      ∀ y ∈ dedupGo seen l, y.id ∉ seen := by
  induction l generalizing seen with
  | nil => simp [dedupGo]
  | cons a t ih =>
    by_cases hc : a.id ∈ seen
    · simpa only [dedupGo, if_pos hc] using ih seen
    · obtain ⟨h1, h2⟩ := ih (a.id :: seen)
      refine ⟨?_, ?_⟩
      · simp only [dedupGo, if_neg hc, List.map_cons, List.nodup_cons]
        refine ⟨?_, h1⟩
        intro hmem
        obtain ⟨y, hy, hid⟩ := List.mem_map.mp hmem
        exact h2 y hy (hid ▸ List.mem_cons_self a.id seen)
      · intro y hy
        simp only [dedupGo, if_neg hc] at hy
        rcases List.mem_cons.mp hy with rfl | hy2
        · exact hc
        · exact fun hm => h2 y hy2 (List.mem_cons_of_mem a.id hm)

/-- Membership in the pre-deduplication union built by `search_items`. -/
theorem search_unioned_mem (items : List Item) (q n d : Option String) (z : Item) :
    z ∈ (items.filter (direct_match q n d)).foldl (fun acc hit =>
        acc ++ items.filter (fun x =>
          x.id == hit.id ||
            (x.tree_id == hit.tree_id && hit.lft < x.lft && x.rght < hit.rght))) [] ↔
      ∃ hit, hit ∈ items ∧ direct_match q n d hit = true ∧ z ∈ items ∧
        (z.id = hit.id ∨ (z.tree_id = hit.tree_id ∧ hit.lft < z.lft ∧ z.rght < hit.rght)) := by
  rw [mem_foldl_union]
  simp only [List.not_mem_nil, false_or]
  constructor
  · rintro ⟨hit, hhit, hz⟩
    obtain ⟨hhit1, hhit2⟩ := List.mem_filter.mp hhit
    obtain ⟨hz1, hz2⟩ := List.mem_filter.mp hz
    refine ⟨hit, hhit1, hhit2, hz1, ?_⟩
    simpa [and_assoc] using hz2
  · rintro ⟨hit, hhit1, hhit2, hz1, hcond⟩
    refine ⟨hit, List.mem_filter.mpr ⟨hhit1, hhit2⟩, List.mem_filter.mpr ⟨hz1, ?_⟩⟩
    simpa [and_assoc] using hcond

/-- C4: with at least one active predicate, the search result is exactly the
union, over the nodes directly matching some predicate, of each hit's
descendants including itself (same `tree_id`, interval strictly inside the
hit's), deduplicated by id. -/
theorem search_union_of_descendants_of_hits
    (items : List Item) (q n d : Option String)
    (hpred : (truthy q || truthy n || truthy d) = true)
    (hids : (items.map (fun x => x.id)).Nodup) :
    (∀ z, z ∈ search_items items q n d ↔
       ∃ hit, hit ∈ items ∧ direct_match q n d hit = true ∧
         (z = hit ∨ (z ∈ items ∧ z.tree_id = hit.tree_id ∧
                     hit.lft < z.lft ∧ z.rght < hit.rght))) ∧
    ((search_items items q n d).map (fun x => x.id)).Nodup := by
  have hif : search_items items q n d = dedupById
      ((items.filter (direct_match q n d)).foldl (fun acc hit =>
        acc ++ items.filter (fun x =>
          x.id == hit.id ||
            (x.tree_id == hit.tree_id && hit.lft < x.lft && x.rght < hit.rght))) []) := by
    unfold search_items
    rw [if_pos hpred]
  rw [hif]
  refine ⟨fun z => ⟨fun hz => ?_, fun hex => ?_⟩, (dedupGo_ids_nodup _ []).1⟩
  · obtain ⟨hit, h1, h2, h3, h4⟩ :=
      (search_unioned_mem items q n d z).mp (mem_of_mem_dedupGo hz)
    refine ⟨hit, h1, h2, ?_⟩
    rcases h4 with h4 | h4
    · exact Or.inl (List.inj_on_of_nodup_map hids h3 h1 h4)
    · exact Or.inr ⟨h3, h4⟩
  · obtain ⟨hit, h1, h2, hcase⟩ := hex
    have hzitems : z ∈ items := by
      rcases hcase with rfl | ⟨h3, _⟩
      · exact h1
      · exact h3
    have hzU := (search_unioned_mem items q n d z).mpr
      ⟨hit, h1, h2, hzitems, by
        rcases hcase with rfl | ⟨_, ht, hl, hr⟩
        · exact Or.inl rfl
        · exact Or.inr ⟨ht, hl, hr⟩⟩
    rcases dedupGo_covers hzU [] with h | ⟨y, hy, hid⟩
    · cases h
    · obtain ⟨_, _, _, hyitems, _⟩ :=
        (search_unioned_mem items q n d y).mp (mem_of_mem_dedupGo hy)
      have : y = z := List.inj_on_of_nodup_map hids hyitems hzitems hid
      exact this ▸ hy

/-- Witness for `search_union_of_descendants_of_hits`: searching "Shelf"
returns the hit Shelf-A plus its descendant Bin-1 and nothing else: Bin-1 is
in the result (found through its ancestor hit), Warehouse is not, and the
result carries no duplicate ids. -/
theorem search_union_of_descendants_of_hits_witness :
    itemB ∈ search_items dbWSB.items none (some "Shelf") none ∧
    itemW ∉ search_items dbWSB.items none (some "Shelf") none ∧
    ((search_items dbWSB.items none (some "Shelf") none).map (fun x => x.id)).Nodup := by
  have h := search_union_of_descendants_of_hits dbWSB.items none (some "Shelf") none
    (by decide) (by decide)
  refine ⟨(h.1 itemB).mpr ⟨itemS, by decide, by decide, Or.inr (by decide)⟩, ?_, h.2⟩
  intro hw
  obtain ⟨hit, h1, h2, hcase⟩ := (h.1 itemW).mp hw
  have hcases : hit = itemW ∨ hit = itemS ∨ hit = itemB := by
    simpa [dbWSB] using h1
  rcases hcases with rfl | rfl | rfl
  · exact absurd h2 (by decide)
  · rcases hcase with h | ⟨_, _, hl, _⟩
    · exact absurd h (by decide)
    · exact absurd hl (by decide)
  · exact absurd h2 (by decide)

/-- The detach step never changes a row's id. -/
theorem moveDetach_id (sids : List Nat) (n : Item) (w : Int) (x : Item) :
    (moveDetach sids n w x).id = x.id := by
  unfold moveDetach
  split <;> rfl

/-- The gap step never changes a row's id. -/
theorem moveGap_id (sids : List Nat) (p1 : Item) (w : Int) (x : Item) :
    (moveGap sids p1 w x).id = x.id := by
  unfold moveGap
  split <;> rfl

/-- The placement step never changes a row's id. -/
theorem movePlace_id (sids : List Nat) (n p1 : Item) (x : Item) :
    (movePlace sids n p1 x).id = x.id := by
  unfold movePlace
  split <;> rfl

/-- Lookup by id commutes with an id-preserving row rewrite. -/
theorem find?_id_map (f : Item → Item) (hf : ∀ x, (f x).id = x.id)
    (items : List Item) (i : Nat) :
    (items.map f).find? (fun x => x.id == i)
      = (items.find? (fun x => x.id == i)).map f := by
  induction items with
  | nil => rfl
  | cons a t ih =>
    simp only [List.map_cons, List.find?]
    rw [hf a]
    cases h : (a.id == i) with
    | true => rfl
    | false => exact ih

/-- A stored row belongs to its own subtree id set. -/
theorem subtree_contains_self {items : List Item} {n : Item} (hn : n ∈ items) :
    (subtreeIds items n).contains n.id = true := by
  apply List.elem_iff.mpr
  exact List.mem_map.mpr ⟨n, List.mem_filter.mpr ⟨hn, by simp [inSubtree]⟩, rfl⟩

/-- A successful id lookup returns a row carrying that id. -/
theorem getItem_id {items : List Item} {i : Nat} {x : Item}
    (h : getItem items i = some x) : x.id = i := by
  have := List.find?_some h
  simpa using this

/-- After the Move rewrite towards an existing parent `p0`, the moved row is
still found under its id and its parent reference is `p0`. -/
theorem move_to_sets_parent (items : List Item) (n p0 : Item) (ft i : Nat)
    (hi : getItem items i = some n) (hp : getItem items p0.id = some p0) :
    ∃ n2, getItem (move_to items n (some p0) ft) i = some n2 ∧
      n2.id = n.id ∧ n2.parent_id = some p0.id := by
  have hn : n ∈ items := List.mem_of_find?_eq_some hi
  have hc : (subtreeIds items n).contains n.id = true := subtree_contains_self hn
  have hD : ∀ x, (moveDetach (subtreeIds items n) n (moveWidth n) x).id = x.id :=
    fun x => moveDetach_id _ _ _ _
  have hfind : (items.map (moveDetach (subtreeIds items n) n (moveWidth n))).find?
      (fun x => x.id == p0.id)
      = some (moveDetach (subtreeIds items n) n (moveWidth n) p0) := by
    rw [find?_id_map _ hD]
    unfold getItem at hp
    rw [hp]
    rfl
  have hp1id : (moveDetach (subtreeIds items n) n (moveWidth n) p0).id = p0.id := hD p0
  have hDn : moveDetach (subtreeIds items n) n (moveWidth n) n = n := by
    unfold moveDetach
    rw [if_pos (Or.inl hc)]
  have hGn : moveGap (subtreeIds items n)
      (moveDetach (subtreeIds items n) n (moveWidth n) p0) (moveWidth n) n = n := by
    unfold moveGap
    rw [if_pos (Or.inl hc)]
  refine ⟨movePlace (subtreeIds items n) n
      (moveDetach (subtreeIds items n) n (moveWidth n) p0) n, ?_, ?_, ?_⟩
  · unfold move_to
    dsimp only
    rw [hfind]
    dsimp only
    unfold getItem
    rw [find?_id_map _ (fun x => movePlace_id _ _ _ _),
        find?_id_map _ (fun x => moveGap_id _ _ _ _),
        find?_id_map _ hD]
    unfold getItem at hi
    rw [hi]
    simp [hDn, hGn]
  · exact movePlace_id _ _ _ _
  · unfold movePlace
    rw [if_pos hc]
    simp [hp1id]

/-- A save never touches the history log. -/
theorem save_item_history (db : DB) (o u : Item) :
    (save_item db o u).history = db.history := by
  unfold save_item
  split <;> rfl

/-- The update endpoint never appends history, whatever it does. -/
theorem update_item_preserves_history (checks : FieldChecks) (db : DB)
    (item_id : Nat) (data : ItemUpdate) :
    (update_item checks db item_id data).1.history = db.history := by
  unfold update_item atomic
  cases hg : getItem db.items item_id with
  | none => simp [hg]
  | some item =>
    simp only [hg]
    cases hd : data.parent_id with
    | none =>
      simp only [hd]
      cases hf : full_clean checks (apply_update item data) with
      | error e => simp [hf]
      | ok u => simp [hf, save_item_history]
    | some pid =>
      simp only [hd]
      cases hv : validate_parent_relationship db.items item pid with
      | error e => simp [hv]
      | ok p =>
        simp only [hv]
        cases hf : full_clean checks (apply_update item data) with
        | error e => simp [hf]
        | ok u => simp [hf, save_item_history]

/-- C1 as stated is refuted: the full-update endpoint, given a `parent_id`,
changes the node's parent (root "Shelf" id 2 moves under "Warehouse" id 1)
yet appends no history entry in that same operation. -/
theorem update_changes_parent_without_history_entry :
    (update_item [] dbTwoRoots 2 { parent_id := some 1 }).2
        = .ok { itemR2 with parent_id := some 1 } ∧
    (getItem dbTwoRoots.items 2).map (fun x => x.parent_id) = some none ∧
    (getItem (update_item [] dbTwoRoots 2 { parent_id := some 1 }).1.items 2).map
        (fun x => x.parent_id) = some (some 1) ∧
    (update_item [] dbTwoRoots 2 { parent_id := some 1 }).1.history
        = dbTwoRoots.history := by
  refine ⟨by rfl, by rfl, by rfl, by rfl⟩

/-- C1 (amended): only the dedicated reparent endpoint records history.  A
successful reparent to an existing, non-circular parent appends exactly one
`ComponentHistory` entry carrying the item, its old parent and its new
parent, in the same committed state in which the item's parent reference now
points at the new parent; the update endpoint never appends history. -/
theorem reparent_appends_exactly_one_history_entry
    (db : DB) (item_id pid : Nat) (data : ItemUpdate) (item parentIt : Item)
    (hitem : getItem db.items item_id = some item)
    (hdata : data.parent_id = some pid)
    (hpar : getItem db.items pid = some parentIt)
    (hok : ¬ (parentIt = item ∨ is_ancestor_of item parentIt = true)) :
    (change_parent db item_id data).1.history
        = db.history ++ [{ item := some item.id, old_parent := item.parent_id,
                           new_parent := some pid }] ∧
    (getItem (change_parent db item_id data).1.items item_id).map
        (fun x => x.parent_id) = some (some pid) ∧
    (change_parent db item_id data).2.isOk = true ∧
    (∀ (checks : FieldChecks) (i2 : Nat) (d2 : ItemUpdate),
       (update_item checks db i2 d2).1.history = db.history) := by
  have hpid : parentIt.id = pid := getItem_id hpar
  have hval : validate_parent_relationship db.items item pid = .ok parentIt := by
    unfold validate_parent_relationship
    rw [hpar]
    dsimp only
    rw [if_neg hok]
  have hp2 : getItem db.items parentIt.id = some parentIt := by
    rw [hpid]
    exact hpar
  obtain ⟨item2, hfind2, hid2, hpar2⟩ :=
    move_to_sets_parent db.items item parentIt db.next_tree item_id hitem hp2
  refine ⟨?_, ?_, ?_, fun checks i2 d2 => update_item_preserves_history checks db i2 d2⟩
  · simp only [change_parent, atomic, hitem, hdata, hval, hfind2]
    simp [hid2, hpid]
  · simp only [change_parent, atomic, hitem, hdata, hval, hfind2]
    simp [hpar2, hpid]
  · simp only [change_parent, atomic, hitem, hdata, hval, hfind2]
    rfl

/-- Witness for `reparent_appends_exactly_one_history_entry`: reparenting the
root "Shelf" (id 2) under "Warehouse" (id 1) succeeds, stores parent 1, and
logs exactly the entry (item 2, old parent none, new parent 1). -/
theorem reparent_appends_exactly_one_history_entry_witness :
    (change_parent dbTwoRoots 2 { parent_id := some 1 }).1.history
        = [{ item := some 2, old_parent := none, new_parent := some 1 }] ∧
    (getItem (change_parent dbTwoRoots 2 { parent_id := some 1 }).1.items 2).map
        (fun x => x.parent_id) = some (some 1) ∧
    (change_parent dbTwoRoots 2 { parent_id := some 1 }).2.isOk = true := by
  have h := reparent_appends_exactly_one_history_entry dbTwoRoots 2 1
      { parent_id := some 1 } itemR2 { itemW with rght := 2 }
      (by rfl) rfl (by rfl) (by decide)
  exact ⟨h.1.trans (by rfl), h.2.1, h.2.2.1⟩
